import Mathlib

/-!
Verification of the descriptive-notation chess move parser
(`descriptive_notation_parser.py`) and the move formatter
(`chess_board_gui.py`, class `MoveToDescriptive`).

The legal-move oracle (python-chess `Board`) is external to the repository;
it is modelled abstractly by the `Board` structure below, exposing exactly
the query surface the parser uses: `turn`, `legal_moves`, `piece_at`,
castling-rights flags, and the castling classifiers used by the formatter.
Squares are integers (`rank * 8 + file`, as in python-chess); they are
modelled as `Int` because the Python code can produce negative or
out-of-range square numbers from out-of-range rank digits without failing.
Piece kinds use python-chess numbering: 1 Pawn, 2 Knight, 3 Bishop,
4 Rook, 5 Queen, 6 King.  Colors: `true` is White, as in python-chess.
-/

namespace DescChess

/-- A chess piece as returned by the oracle's `piece_at`. -/
structure Piece where
  pieceType : Nat
  color : Bool
deriving DecidableEq, Repr

/-- A candidate move as supplied by the oracle (`chess.Move`). -/
structure Move where
  fromSquare : Int
  toSquare : Int
  promotion : Option Nat
deriving DecidableEq, Repr

/-- The external legal-move oracle (python-chess `Board`), abstractly:
only the query surface the parser and formatter use. -/
structure Board where
  turn : Bool
  legalMoves : List Move
  pieceAt : Int → Option Piece
  kingsideRights : Bool → Bool
  queensideRights : Bool → Bool
  isCastlingMove : Move → Bool
  isKingsideCastlingMove : Move → Bool

/-- `DescriptiveNotationParser`: holds the board and the side to move
captured at construction time (`self.is_white_turn = board.turn`). -/
structure DescriptiveNotationParser where
  board : Board
  is_white_turn : Bool

/-- `DescriptiveNotationParser.__init__`: captures `board.turn`. -/
def DescriptiveNotationParser.ofBoard (b : Board) : DescriptiveNotationParser :=
  ⟨b, b.turn⟩

/-! ## Input normalisation (`parse`, lines 76–79)

`notation.strip().upper()` followed by
`re.sub(r'\s*(ch|check|\+|mate|#|e\.?\s*p\.?).*$', '', ...)`.
After upper-casing, the case-insensitive alternatives reduce to the
upper-case ones; since the pattern ends in `.*$`, a match is found at the
leftmost position from which zero or more whitespace characters are
followed by one of the alternative heads (`CH` subsumes `CHECK`), and
everything from that position on is deleted. -/

/-- Python `\s` whitespace (ASCII part). -/
def isWs (c : Char) : Bool :=
  c == ' ' || c == '\t' || c == '\n' || c == '\r' || c == '\x0b' || c == '\x0c'

/-- Python `str.strip`. -/
def trimChars (cs : List Char) : List Char :=
  (((cs.dropWhile isWs).reverse).dropWhile isWs).reverse

/-- The tail of the `e\.?\s*p\.?` alternative after the leading `E`:
an optional dot, whitespace, then `P` (the trailing dot is absorbed
by `.*$`). -/
def epTail (cs : List Char) : Bool :=
  match cs with
  | '.' :: rest => (rest.dropWhile isWs).head? == some 'P'
  | rest => (rest.dropWhile isWs).head? == some 'P'

/-- Does one of the annotation alternatives match at this position? -/
def isAnnotAt (cs : List Char) : Bool :=
  ['C', 'H'].isPrefixOf cs || ['+'].isPrefixOf cs ||
  ['M', 'A', 'T', 'E'].isPrefixOf cs || ['#'].isPrefixOf cs ||
  (cs.head? == some 'E' && epTail cs.tail)

/-- Delete from the leftmost position where (whitespace then) an
annotation alternative matches, to the end. -/
def stripAnnot : List Char → List Char
  | [] => []
  | c :: cs =>
    if isAnnotAt ((c :: cs).dropWhile isWs) then []
    else c :: stripAnnot cs

/-- Full input normalisation: `strip`, `upper`, strip annotation suffix. -/
def normalize (cs : List Char) : List Char :=
  stripAnnot ((trimChars cs).map Char.toUpper)

/-! ## Token helpers -/

/-- `re.search(r'(\d+)', s)`: the first maximal run of digits, if any. -/
def firstDigitRun : List Char → Option (List Char)
  | [] => none
  | c :: cs => if c.isDigit then some (c :: cs.takeWhile Char.isDigit)
               else firstDigitRun cs

/-- `int` of a digit string. -/
def digitsToInt (ds : List Char) : Int :=
  ds.foldl (fun a c => a * 10 + ((c.toNat - '0'.toNat : Nat) : Int)) 0

/-- The rank extracted by `re.search(r'(\d+)', notation)` plus `int(...)`. -/
def extractRank (cs : List Char) : Option Int :=
  (firstDigitRun cs).map digitsToInt

/-- `FILE_MAP` (lines 27–30): descriptive file token to standard file. -/
def FILE_MAP (fd : List Char) : Option Char :=
  if fd = ['Q', 'R'] then some 'a'
  else if fd = ['Q', 'N'] then some 'b'
  else if fd = ['Q', 'B'] then some 'c'
  else if fd = ['Q'] then some 'd'
  else if fd = ['K'] then some 'e'
  else if fd = ['K', 'B'] then some 'f'
  else if fd = ['K', 'N'] then some 'g'
  else if fd = ['K', 'R'] then some 'h'
  else none

/-- `AMBIGUOUS_FILES` (lines 33–37). -/
def AMBIGUOUS_FILES (c : Char) : List Char :=
  if c = 'R' then ['a', 'h']
  else if c = 'N' then ['b', 'g']
  else if c = 'B' then ['c', 'f']
  else []

/-- `QUALIFIED_PIECES` (lines 50–57): piece letter and side qualifier. -/
def QUALIFIED_PIECES (q : List Char) : Option (Char × Char) :=
  if q = ['Q', 'R'] then some ('R', 'Q')
  else if q = ['K', 'R'] then some ('R', 'K')
  else if q = ['Q', 'N'] then some ('N', 'Q')
  else if q = ['K', 'N'] then some ('N', 'K')
  else if q = ['Q', 'B'] then some ('B', 'Q')
  else if q = ['K', 'B'] then some ('B', 'K')
  else none

/-- `piece_map` (lines 211, 328, 379, 414). -/
def piece_map (c : Char) : Option Nat :=
  if c = 'P' then some 1
  else if c = 'R' then some 4
  else if c = 'N' then some 2
  else if c = 'B' then some 3
  else if c = 'Q' then some 5
  else if c = 'K' then some 6
  else none

/-- `promo_map` (line 161). -/
def promo_map (c : Char) : Option Nat :=
  if c = 'Q' then some 5
  else if c = 'R' then some 4
  else if c = 'B' then some 3
  else if c = 'N' then some 2
  else none

/-- `_descriptive_file_to_standard` (lines 544–546). -/
def descriptive_file_to_standard (fd : List Char) : Option Char :=
  FILE_MAP fd

/-- `_descriptive_rank_to_standard` (lines 548–558): perspective-relative
rank digit to absolute rank, using the side captured at construction. -/
def DescriptiveNotationParser.rankToStd
    (p : DescriptiveNotationParser) (rankDesc : Int) : Int :=
  if p.is_white_turn then rankDesc - 1 else 8 - rankDesc

/-- `_file_rank_to_square` (lines 560–563). -/
def file_rank_to_square (file : Char) (rank : Int) : Int :=
  rank * 8 + ((file.toNat : Int) - ('a'.toNat : Int))

/-! ## File-token extraction shared by the piece/qualified/pawn paths
(lines 187–199, 305–317, 465–477). -/

/-- The eight unambiguous file patterns, in the source's match order. -/
def filePatterns : List (List Char) :=
  [['Q', 'R'], ['Q', 'N'], ['Q', 'B'], ['K', 'R'], ['K', 'N'], ['K', 'B'],
   ['Q'], ['K']]

/-- First file pattern (longest first, source order) prefixing `cs`,
with the rest of the string. -/
def matchFile (cs : List Char) : Option (List Char × List Char) :=
  (filePatterns.find? (fun pat => pat.isPrefixOf cs)).map
    (fun pat => (pat, cs.drop pat.length))

/-- Fallback: a leading ambiguous abbreviated file letter R/N/B. -/
def matchAmbig (cs : List Char) : Option (Char × List Char) :=
  match cs with
  | c :: rest =>
    if c = 'R' || c = 'N' || c = 'B' then some (c, rest) else none
  | [] => none

/-- File extraction: unambiguous pattern first, else ambiguous letter,
else nothing.  Returns `(file_desc, ambiguous_file, rest)`. -/
def splitFile (cs : List Char) : Option (List Char) × Option Char × List Char :=
  match matchFile cs with
  | some (fd, rest) => (some fd, none, rest)
  | none =>
    match matchAmbig cs with
    | some (c, rest) => (none, some c, rest)
    | none => (none, none, cs)

/-! ## Candidate filtering and disambiguation -/

/-- Does the origin square hold a piece of kind `pt` and the oracle's
current side to move?  (`piece and piece.piece_type == piece_type and
piece.color == self.board.turn`.) -/
def matchPiece (b : Board) (sq : Int) (pt : Nat) : Bool :=
  match b.pieceAt sq with
  | some pc => pc.pieceType == pt && pc.color == b.turn
  | none => false

/-- Legal moves to one target square whose origin matches
(lines 255–260, 526–530 and the per-file loops 229–233, 500–504). -/
def movesTo (b : Board) (target : Int) (pt : Nat) : List Move :=
  b.legalMoves.filter (fun m => m.toSquare == target && matchPiece b m.fromSquare pt)

/-- Disambiguation used by the plain-piece and pawn paths
(lines 263–274, 506–513, 532–540): a single candidate is returned;
with several, a capture input prefers the first candidate whose
destination currently holds a piece, else the first candidate. -/
def disambigCapFirst (b : Board) (isCap : Bool) (cands : List Move) : Option Move :=
  match cands with
  | [] => none
  | [m] => some m
  | m :: rest =>
    if isCap then
      match (m :: rest).find? (fun m' => (b.pieceAt m'.toSquare).isSome) with
      | some mc => some mc
      | none => some m
    else some m

/-- Does the origin file fall on the qualifier's side?
(`side == 'Q' and from_file <= 3` / `side == 'K' and from_file >= 4`.) -/
def sideMatches (side : Char) (m : Move) : Bool :=
  let f := m.fromSquare % 8
  (side == 'Q' && decide (f ≤ 3)) || (side == 'K' && decide (4 ≤ f))

/-- Disambiguation used by the qualified paths (lines 359–375, 394–407):
none / single / first candidate on the qualifier's side, else the first
candidate.  Capture preference is never consulted here. -/
def disambigQualifier (side : Char) (cands : List Move) : Option Move :=
  match cands with
  | [] => none
  | [m] => some m
  | _ :: _ =>
    match cands.find? (sideMatches side) with
    | some m => some m
    | none => cands.head?

/-! ## The five grammar handlers -/

/-- `_parse_castling_kingside` (lines 123–131). -/
def DescriptiveNotationParser.parse_castling_kingside
    (p : DescriptiveNotationParser) : Option Move :=
  if p.is_white_turn then
    if p.board.kingsideRights true then some ⟨4, 6, none⟩ else none
  else
    if p.board.kingsideRights false then some ⟨60, 62, none⟩ else none

/-- `_parse_castling_queenside` (lines 133–141). -/
def DescriptiveNotationParser.parse_castling_queenside
    (p : DescriptiveNotationParser) : Option Move :=
  if p.is_white_turn then
    if p.board.queensideRights true then some ⟨4, 2, none⟩ else none
  else
    if p.board.queensideRights false then some ⟨60, 58, none⟩ else none

/-- The `[A-Z]` character class of the promotion regex. -/
def isUpperAZ (c : Char) : Bool :=
  decide ('A' ≤ c) && decide (c ≤ 'Z')

/-- The part of `_parse_promotion` after the mandatory `P-` prefix of
the regex: greedy `[A-Z]+`, greedy `\d+`, then `\(`, a promotion letter,
`\)`; on a match, scan the legal moves. -/
def DescriptiveNotationParser.promoBody
    (p : DescriptiveNotationParser) (rest : List Char) : Option Move :=
  if rest.takeWhile isUpperAZ = [] then none
  else if (rest.dropWhile isUpperAZ).takeWhile Char.isDigit = [] then none
  else
    match (rest.dropWhile isUpperAZ).dropWhile Char.isDigit with
    | '(' :: pr :: ')' :: _ =>
      if pr = 'Q' || pr = 'R' || pr = 'B' || pr = 'N' then
        match descriptive_file_to_standard (rest.takeWhile isUpperAZ) with
        | none => none
        | some f =>
          p.board.legalMoves.find? (fun m =>
            m.toSquare == file_rank_to_square f
              (p.rankToStd (digitsToInt
                ((rest.dropWhile isUpperAZ).takeWhile Char.isDigit))) &&
            m.promotion.isSome && m.promotion == promo_map pr)
      else none
    | _ => none

/-- `_parse_promotion` (lines 143–165): `re.match` of
`P-([A-Z]+)(\d+)\(([QRBN])\)` then a scan of the legal moves for the
first one with the resolved destination and the requested promotion. -/
def DescriptiveNotationParser.parse_promotion
    (p : DescriptiveNotationParser) (cs : List Char) : Option Move :=
  match cs with
  | 'P' :: '-' :: rest => p.promoBody rest
  | _ => none

/-- The filter condition of `_parse_generic_capture` (lines 425–432):
the origin holds a piece of the requested kind and the current side to
move, the destination holds a piece, and the captured kind matches the
optional requested kind. -/
def genericCapPred (b : Board) (pt : Nat) (tpt : Option Nat) (m : Move) : Bool :=
  match b.pieceAt m.fromSquare, b.pieceAt m.toSquare with
  | some pc, some cap =>
    pc.pieceType == pt && pc.color == b.turn &&
    (match tpt with
     | none => true
     | some t => cap.pieceType == t)
  | _, _ => false

/-- `target_piece_type = piece_map.get(captured_type) if captured_type
else None` (line 416). -/
def tptOf (capturedChar : Option Char) : Option Nat :=
  match capturedChar with
  | some c => piece_map c
  | none => none

/-- `_parse_generic_capture` (lines 409–440): all capture moves of the
piece kind, optionally filtered by captured piece kind; first one wins. -/
def DescriptiveNotationParser.parse_generic_capture
    (p : DescriptiveNotationParser) (pieceChar : Char)
    (capturedChar : Option Char) : Option Move :=
  match piece_map pieceChar with
  | none => none
  | some pt =>
    match p.board.legalMoves.filter (genericCapPred p.board pt (tptOf capturedChar)) with
    | [] => none
    | m :: _ => some m

/-- `_parse_qualified_capture` (lines 377–407): all capture moves of the
piece kind (the captured-piece letter is NOT consulted), then the
side-qualifier disambiguation. -/
def DescriptiveNotationParser.parse_qualified_capture
    (p : DescriptiveNotationParser) (pieceChar side : Char) : Option Move :=
  match piece_map pieceChar with
  | none => none
  | some pt =>
    disambigQualifier side (p.board.legalMoves.filter (genericCapPred p.board pt none))

/-- `_parse_piece_move` (lines 167–276). -/
def DescriptiveNotationParser.parse_piece_move
    (p : DescriptiveNotationParser) (cs : List Char) : Option Move :=
  match cs with
  | [] => none
  | pieceChar :: cs1 =>
    let isCap := cs1.contains 'x' || cs1.contains 'X'
    let cs2 := cs1.filter (fun c => !(c == '-' || c == 'x' || c == 'X'))
    if cs2 = [] || cs2 = ['P'] || cs2 = ['R'] || cs2 = ['N'] || cs2 = ['B'] ||
       cs2 = ['Q'] || cs2 = ['K'] then
      p.parse_generic_capture pieceChar cs2.head?
    else
      let (fdOpt, ambOpt, cs3) := splitFile cs2
      match extractRank cs3 with
      | none => none
      | some rankDesc =>
        if fdOpt.isNone && ambOpt.isNone then none
        else
          match piece_map pieceChar with
          | none => none
          | some pt =>
            let targetRank := p.rankToStd rankDesc
            match ambOpt with
            | some ab =>
              let allCands := (AMBIGUOUS_FILES ab).flatMap
                (fun f => movesTo p.board (file_rank_to_square f targetRank) pt)
              disambigCapFirst p.board isCap allCands
            | none =>
              match fdOpt with
              | none => none
              | some fd =>
                match descriptive_file_to_standard fd with
                | none => none
                | some f =>
                  disambigCapFirst p.board isCap
                    (movesTo p.board (file_rank_to_square f targetRank) pt)

/-- `_parse_qualified_piece_move` (lines 278–375). -/
def DescriptiveNotationParser.parse_qualified_piece_move
    (p : DescriptiveNotationParser) (cs : List Char) : Option Move :=
  match QUALIFIED_PIECES (cs.take 2) with
  | none => none
  | some (pieceChar, side) =>
    let cs1 := cs.drop 2
    let isCap := cs1.contains 'x' || cs1.contains 'X'
    let cs2 := cs1.filter (fun c => !(c == '-' || c == 'x' || c == 'X'))
    let _ := isCap
    if cs2 = ['P'] || cs2 = [] then
      p.parse_qualified_capture pieceChar side
    else
      let (fdOpt, ambOpt, cs3) := splitFile cs2
      match extractRank cs3 with
      | none => none
      | some rankDesc =>
        if fdOpt.isNone && ambOpt.isNone then none
        else
          match piece_map pieceChar with
          | none => none
          | some pt =>
            let targetRank := p.rankToStd rankDesc
            let targets : List Int :=
              match ambOpt with
              | some ab =>
                (AMBIGUOUS_FILES ab).map (fun f => file_rank_to_square f targetRank)
              | none =>
                match fdOpt with
                | some fd =>
                  match descriptive_file_to_standard fd with
                  | some f => [file_rank_to_square f targetRank]
                  | none => []
                | none => []
            if targets = [] then none
            else
              let cands := p.board.legalMoves.filter (fun m =>
                targets.contains m.toSquare && matchPiece p.board m.fromSquare pt)
              disambigQualifier side cands

/-- `_parse_pawn_move` (lines 442–542). -/
def DescriptiveNotationParser.parse_pawn_move
    (p : DescriptiveNotationParser) (cs : List Char) : Option Move :=
  let cs1 :=
    if ['P', '-'].isPrefixOf cs then cs.drop 2
    else if ['P'].isPrefixOf cs then cs.drop 1
    else cs
  let isCap := cs1.contains 'x' || cs1.contains 'X'
  let remaining := cs1.filter (fun c => !(c == 'x' || c == 'X'))
  if remaining = ['P'] || remaining = ['N'] || remaining = ['B'] ||
     remaining = ['R'] || remaining = ['Q'] || remaining = [] then
    p.parse_generic_capture 'P' remaining.head?
  else
    let (fdOpt, ambOpt, cs3) := splitFile remaining
    match extractRank cs3 with
    | none => none
    | some rankDesc =>
      if fdOpt.isNone && ambOpt.isNone then none
      else
        let targetRank := p.rankToStd rankDesc
        match ambOpt with
        | some ab =>
          let allCands := (AMBIGUOUS_FILES ab).flatMap
            (fun f => movesTo p.board (file_rank_to_square f targetRank) 1)
          disambigCapFirst p.board isCap allCands
        | none =>
          match fdOpt with
          | none => none
          | some fd =>
            match descriptive_file_to_standard fd with
            | none => none
            | some f =>
              disambigCapFirst p.board isCap
                (movesTo p.board (file_rank_to_square f targetRank) 1)

/-- The post-qualified-prefix part of the dispatch in `parse`
(lines 100–121). -/
def DescriptiveNotationParser.dispatchRest
    (p : DescriptiveNotationParser) (n : List Char) : Option Move :=
  match n with
  | [] => p.parse_pawn_move []
  | c :: rest =>
    if c = 'R' || c = 'N' || c = 'B' || c = 'Q' then p.parse_piece_move n
    else if c = 'K' then
      if (match rest with
          | c2 :: _ => c2 = '-' || c2 = 'x' || c2 = 'X'
          | [] => false) then
        p.parse_piece_move n
      else if ['K', 'B'].isPrefixOf n || ['K', 'N'].isPrefixOf n ||
              ['K', 'R'].isPrefixOf n then
        p.parse_pawn_move n
      else
        match p.parse_piece_move n with
        | some m => some m
        | none => p.parse_pawn_move n
    else p.parse_pawn_move n

/-- The dispatch of `parse` (lines 82–121), applied to the normalised
input. -/
def DescriptiveNotationParser.dispatchTop
    (p : DescriptiveNotationParser) (n : List Char) : Option Move :=
  if n = ['O', '-', 'O'] || n = ['0', '-', '0'] then
    p.parse_castling_kingside
  else if n = ['O', '-', 'O', '-', 'O'] || n = ['0', '-', '0', '-', '0'] then
    p.parse_castling_queenside
  else if n.contains '(' && n.contains ')' then
    p.parse_promotion n
  else
    match [['Q', 'R'], ['K', 'R'], ['Q', 'N'], ['K', 'N'], ['Q', 'B'],
           ['K', 'B']].find? (fun q => q.isPrefixOf n) with
    | some _ =>
      if (match n.drop 2 with
          | c :: _ => c = '-' || c = 'x' || c = 'X'
          | [] => false) then
        p.parse_qualified_piece_move n
      else p.dispatchRest n
    | none => p.dispatchRest n

/-- `parse` (lines 63–121): normalisation then dispatch. -/
def DescriptiveNotationParser.parseChars
    (p : DescriptiveNotationParser) (cs : List Char) : Option Move :=
  p.dispatchTop (normalize cs)

/-- `parse` on a Lean string. -/
def DescriptiveNotationParser.parse
    (p : DescriptiveNotationParser) (s : String) : Option Move :=
  p.parseChars s.data

/-! ## The move formatter (`chess_board_gui.py`, `MoveToDescriptive`) -/

/-- `MoveToDescriptive.FILE_NAMES` (lines 21–24). -/
def FILE_NAMES (f : Int) : List Char :=
  if f = 0 then ['Q', 'R']
  else if f = 1 then ['Q', 'N']
  else if f = 2 then ['Q', 'B']
  else if f = 3 then ['Q']
  else if f = 4 then ['K']
  else if f = 5 then ['K', 'B']
  else if f = 6 then ['K', 'N']
  else if f = 7 then ['K', 'R']
  else []

/-- `MoveToDescriptive.PIECE_LETTERS` (line 26), with the `.get(_, '')`
default. -/
def PIECE_LETTERS (pt : Nat) : List Char :=
  if pt = 1 then ['P']
  else if pt = 2 then ['N']
  else if pt = 3 then ['B']
  else if pt = 4 then ['R']
  else if pt = 5 then ['Q']
  else if pt = 6 then ['K']
  else []

/-- The formatter's perspective-relative rank number (lines 53–57). -/
def fmtRankNum (color : Bool) (toRank : Int) : Int :=
  if color then toRank + 1 else 8 - toRank

/-- Decimal digits of a natural number (fuelled helper). -/
def natDigitsAux : Nat → Nat → List Char
  | 0, _ => []
  | _ + 1, 0 => []
  | fuel + 1, n =>
    natDigitsAux fuel (n / 10) ++ [Char.ofNat ('0'.toNat + n % 10)]

/-- Decimal rendering of an integer, as Python's f-string does. -/
def intToChars (n : Int) : List Char :=
  if n < 0 then '-' :: (if n.natAbs = 0 then ['0'] else natDigitsAux n.natAbs n.natAbs)
  else if n = 0 then ['0']
  else natDigitsAux n.toNat n.toNat

/-- python-chess square name (file letter, rank digit); only consulted by
the formatter when the origin square is empty. -/
def squareChars (sq : Int) : List Char :=
  [Char.ofNat ('a'.toNat + (sq % 8).toNat), Char.ofNat ('1'.toNat + (sq / 8).toNat)]

/-- python-chess `Move.uci()`. -/
def uciChars (m : Move) : List Char :=
  squareChars m.fromSquare ++ squareChars m.toSquare ++
  (match m.promotion with
   | some 1 => ['p']
   | some 2 => ['n']
   | some 3 => ['b']
   | some 4 => ['r']
   | some 5 => ['q']
   | some 6 => ['k']
   | _ => [])

/-- `MoveToDescriptive.convert` (lines 28–80). -/
def MoveToDescriptive.convert (b : Board) (m : Move) : List Char :=
  if b.isCastlingMove m then
    if b.isKingsideCastlingMove m then ['O', '-', 'O'] else ['O', '-', 'O', '-', 'O']
  else
    match b.pieceAt m.fromSquare with
    | none => uciChars m
    | some piece =>
      let captured := b.pieceAt m.toSquare
      let pieceLetter := PIECE_LETTERS piece.pieceType
      let toFile := m.toSquare % 8
      let toRank := m.toSquare / 8
      let rankNum := fmtRankNum piece.color toRank
      let fileName := FILE_NAMES toFile
      let result :=
        match captured with
        | some _ =>
          if piece.pieceType = 1 then
            FILE_NAMES (m.fromSquare % 8) ++ ['P', 'x'] ++ fileName ++ intToChars rankNum
          else
            pieceLetter ++ ['x'] ++ fileName ++ intToChars rankNum
        | none => pieceLetter ++ ['-'] ++ fileName ++ intToChars rankNum
      match m.promotion with
      | some pr => result ++ ['('] ++ PIECE_LETTERS pr ++ [')']
      | none => result

/-! ## Concrete oracle states used by the claims

These are genuine python-chess oracle snapshots (piece placement and the
full legal-move list) for the positions the claims mention. -/

/-- Piece placement of the standard initial position. -/
def initPieceAt (sq : Int) : Option Piece :=
  if sq = 0 ∨ sq = 7 then some ⟨4, true⟩
  else if sq = 1 ∨ sq = 6 then some ⟨2, true⟩
  else if sq = 2 ∨ sq = 5 then some ⟨3, true⟩
  else if sq = 3 then some ⟨5, true⟩
  else if sq = 4 then some ⟨6, true⟩
  else if 8 ≤ sq ∧ sq ≤ 15 then some ⟨1, true⟩
  else if 48 ≤ sq ∧ sq ≤ 55 then some ⟨1, false⟩
  else if sq = 56 ∨ sq = 63 then some ⟨4, false⟩
  else if sq = 57 ∨ sq = 62 then some ⟨2, false⟩
  else if sq = 58 ∨ sq = 61 then some ⟨3, false⟩
  else if sq = 59 then some ⟨5, false⟩
  else if sq = 60 then some ⟨6, false⟩
  else none

/-- The 20 legal moves of the initial position (python-chess order is
irrelevant to the claims proved here; this is a valid enumeration). -/
def initLegalMoves : List Move :=
  [⟨8, 16, none⟩, ⟨8, 24, none⟩, ⟨9, 17, none⟩, ⟨9, 25, none⟩,
   ⟨10, 18, none⟩, ⟨10, 26, none⟩, ⟨11, 19, none⟩, ⟨11, 27, none⟩,
   ⟨12, 20, none⟩, ⟨12, 28, none⟩, ⟨13, 21, none⟩, ⟨13, 29, none⟩,
   ⟨14, 22, none⟩, ⟨14, 30, none⟩, ⟨15, 23, none⟩, ⟨15, 31, none⟩,
   ⟨1, 16, none⟩, ⟨1, 18, none⟩, ⟨6, 21, none⟩, ⟨6, 23, none⟩]

/-- The standard initial position, White to move. -/
def initBoard : Board :=
  ⟨true, initLegalMoves, initPieceAt,
   fun _ => true, fun _ => true, fun _ => false, fun _ => false⟩

/-- Piece placement after 1. e4. -/
def afterE4PieceAt (sq : Int) : Option Piece :=
  if sq = 12 then none
  else if sq = 28 then some ⟨1, true⟩
  else initPieceAt sq

/-- The 20 legal Black moves after 1. e4. -/
def afterE4LegalMoves : List Move :=
  [⟨48, 40, none⟩, ⟨48, 32, none⟩, ⟨49, 41, none⟩, ⟨49, 33, none⟩,
   ⟨50, 42, none⟩, ⟨50, 34, none⟩, ⟨51, 43, none⟩, ⟨51, 35, none⟩,
   ⟨52, 44, none⟩, ⟨52, 36, none⟩, ⟨53, 45, none⟩, ⟨53, 37, none⟩,
   ⟨54, 46, none⟩, ⟨54, 38, none⟩, ⟨55, 47, none⟩, ⟨55, 39, none⟩,
   ⟨57, 40, none⟩, ⟨57, 42, none⟩, ⟨62, 45, none⟩, ⟨62, 47, none⟩]

/-- The position after 1. e4, Black to move. -/
def afterE4Board : Board :=
  ⟨false, afterE4LegalMoves, afterE4PieceAt,
   fun _ => true, fun _ => true, fun _ => false, fun _ => false⟩

/-- Placement for the qualified-disambiguation scenario: White rooks on
e1 and h1, a Black knight on g1, nothing else relevant. -/
def qualPieceAt (sq : Int) : Option Piece :=
  if sq = 4 then some ⟨4, true⟩
  else if sq = 7 then some ⟨4, true⟩
  else if sq = 6 then some ⟨2, false⟩
  else none

/-- Oracle state where both rook moves answering `QRxN1` start on the
kingside and only the second one is an actual capture. -/
def qualBoard : Board :=
  ⟨true, [⟨4, 1, none⟩, ⟨7, 6, none⟩], qualPieceAt,
   fun _ => false, fun _ => false, fun _ => false, fun _ => false⟩

/-- Placement for the qualified-capture scenario: a White rook on a1 and
a Black knight on a8. -/
def qcapPieceAt (sq : Int) : Option Piece :=
  if sq = 0 then some ⟨4, true⟩
  else if sq = 56 then some ⟨2, false⟩
  else none

/-- Oracle state where the only rook capture takes a knight, not a pawn. -/
def qcapBoard : Board :=
  ⟨true, [⟨0, 56, none⟩], qcapPieceAt,
   fun _ => false, fun _ => false, fun _ => false, fun _ => false⟩

/-- Placement for a plain generic capture: a White knight on f3, a Black
pawn on e5. -/
def ncapPieceAt (sq : Int) : Option Piece :=
  if sq = 21 then some ⟨2, true⟩
  else if sq = 36 then some ⟨1, false⟩
  else none

/-- Oracle state where the knight's only move captures the pawn. -/
def ncapBoard : Board :=
  ⟨true, [⟨21, 36, none⟩], ncapPieceAt,
   fun _ => false, fun _ => false, fun _ => false, fun _ => false⟩

/-- Placement for the en-passant scenario: a White pawn on e5, a Black
pawn on d5 that has just double-stepped. -/
def epPieceAt (sq : Int) : Option Piece :=
  if sq = 36 then some ⟨1, true⟩
  else if sq = 35 then some ⟨1, false⟩
  else none

/-- Oracle state where the only pawn capture is the en-passant capture
e5xd6 (destination d6 = 43 is empty). -/
def epBoard : Board :=
  ⟨true, [⟨36, 43, none⟩, ⟨36, 44, none⟩], epPieceAt,
   fun _ => false, fun _ => false, fun _ => false, fun _ => false⟩

/-- Placement for the pawn-capture round-trip scenario: a White pawn on
e4, a Black pawn on d5. -/
def pawnCapPieceAt (sq : Int) : Option Piece :=
  if sq = 28 then some ⟨1, true⟩
  else if sq = 35 then some ⟨1, false⟩
  else none

/-- Oracle state where the White pawn can capture d5 or push to e5. -/
def pawnCapBoard : Board :=
  ⟨true, [⟨28, 35, none⟩, ⟨28, 36, none⟩], pawnCapPieceAt,
   fun _ => false, fun _ => false, fun _ => false, fun _ => false⟩

/-! ## Helper notions used only by the theorems -/

/-- A character that input normalisation provably leaves alone: already
upper case, not whitespace, and not the head of any annotation
alternative. -/
def goodChar (c : Char) : Bool :=
  c.toUpper == c && !isWs c &&
  !(c == 'C' || c == 'M' || c == '+' || c == '#' || c == 'E')

/-- The character of a decimal digit. -/
def digitChar (d : Nat) : Char :=
  Char.ofNat ('0'.toNat + d)

/-- Oracle sanity: no legal move has a piece of the side to move standing
on its destination square.  True of every real chess position (castling
and en-passant destinations are empty in python-chess encoding). -/
def capturesOnlyEnemies (b : Board) : Prop :=
  ∀ m ∈ b.legalMoves, ∀ q, b.pieceAt m.toSquare = some q → q.color ≠ b.turn

/-! # Theorems -/

/-! ## General helper lemmas -/

theorem find?_eq_some_of_unique {α : Type} {p : α → Bool} {l : List α} {a : α}
    (hmem : a ∈ l) (hpa : p a = true)
    (huniq : ∀ b ∈ l, p b = true → b = a) :
    l.find? p = some a := by
  induction l with
  | nil => cases hmem
  | cons x xs ih =>
    by_cases hx : p x = true
    · have hxa : x = a := huniq x (List.mem_cons_self x xs) hx
      subst hxa
      simp [List.find?_cons_of_pos _ hx]
    · have hxa : a ≠ x := fun h => hx (h ▸ hpa)
      have hmem' : a ∈ xs := by
        rcases List.mem_cons.mp hmem with h | h
        · exact absurd h hxa
        · exact h
      rw [List.find?_cons_of_neg _ (by simpa using hx)]
      exact ih hmem' (fun b hb hpb => huniq b (List.mem_cons_of_mem _ hb) hpb)

theorem disambigQualifier_mem {side : Char} {cands : List Move} {m : Move}
    (h : disambigQualifier side cands = some m) : m ∈ cands := by
  rcases cands with _ | ⟨a, _ | ⟨b, l⟩⟩
  · simp [disambigQualifier] at h
  · simp [disambigQualifier] at h
    simp [h]
  · unfold disambigQualifier at h
    rcases hf : (a :: b :: l).find? (sideMatches side) with _ | m'
    · rw [hf] at h
      simp at h
      simp [h]
    · rw [hf] at h
      simp at h
      subst h
      exact List.mem_of_find?_eq_some hf

/-! ## C1: perspective-relative rank resolution -/

/-- C1: the descriptive rank digit r (1–8) resolves, via the side to move
captured at parser construction, to absolute rank r-1 for White and 8-r
for Black; the result is an in-range rank and the two colors' resolutions
are perspective flips of one another (they sum to 7). -/
theorem C1_rank_perspective (p : DescriptiveNotationParser) (r : Int)
    (h1 : 1 ≤ r) (h8 : r ≤ 8) :
    (p.is_white_turn = true → p.rankToStd r = r - 1) ∧
    (p.is_white_turn = false → p.rankToStd r = 8 - r) ∧
    0 ≤ p.rankToStd r ∧ p.rankToStd r ≤ 7 ∧
    DescriptiveNotationParser.rankToStd ⟨p.board, true⟩ r +
      DescriptiveNotationParser.rankToStd ⟨p.board, false⟩ r = 7 := by
  unfold DescriptiveNotationParser.rankToStd
  rcases hp : p.is_white_turn <;> simp [hp] <;> omega

theorem C1_rank_perspective_witness :
    ((DescriptiveNotationParser.ofBoard initBoard).is_white_turn = true →
      (DescriptiveNotationParser.ofBoard initBoard).rankToStd 4 = 4 - 1) ∧
    ((DescriptiveNotationParser.ofBoard initBoard).is_white_turn = false →
      (DescriptiveNotationParser.ofBoard initBoard).rankToStd 4 = 8 - 4) ∧
    0 ≤ (DescriptiveNotationParser.ofBoard initBoard).rankToStd 4 ∧
    (DescriptiveNotationParser.ofBoard initBoard).rankToStd 4 ≤ 7 ∧
    DescriptiveNotationParser.rankToStd
        ⟨(DescriptiveNotationParser.ofBoard initBoard).board, true⟩ 4 +
      DescriptiveNotationParser.rankToStd
        ⟨(DescriptiveNotationParser.ofBoard initBoard).board, false⟩ 4 = 7 :=
  C1_rank_perspective (DescriptiveNotationParser.ofBoard initBoard) 4
    (by decide) (by decide)

/-! ## C2: end-to-end opening scenarios -/

/-- C2: on the initial position `P-K4` is e2e4, after 1.e4 the Black
`P-K4` is e7e5, and on the initial position `N-KB3` is g1f3 and `P-Q4`
is d2d4 (squares numbered rank*8+file: e2=12, e4=28, e7=52, e5=36,
g1=6, f3=21, d2=11, d4=27). -/
theorem C2_end_to_end_scenarios :
    (DescriptiveNotationParser.ofBoard initBoard).parse "P-K4" =
        some ⟨12, 28, none⟩ ∧
    (DescriptiveNotationParser.ofBoard afterE4Board).parse "P-K4" =
        some ⟨52, 36, none⟩ ∧
    (DescriptiveNotationParser.ofBoard initBoard).parse "N-KB3" =
        some ⟨6, 21, none⟩ ∧
    (DescriptiveNotationParser.ofBoard initBoard).parse "P-Q4" =
        some ⟨11, 27, none⟩ :=
  ⟨by decide, by decide, by decide, by decide⟩

/-! ## C5: castling tokens consult only the rights flags -/

/-- C5: for any oracle state, the kingside castling tokens resolve to the
fixed king move of the side to move exactly when that side's kingside
rights are granted (else the parse fails), and likewise queenside; no
other oracle query is involved. -/
theorem C5_castling_rights (b : Board) :
    ((DescriptiveNotationParser.ofBoard b).parse "O-O" =
      if b.kingsideRights b.turn then
        some (if b.turn then (⟨4, 6, none⟩ : Move) else ⟨60, 62, none⟩)
      else none) ∧
    ((DescriptiveNotationParser.ofBoard b).parse "0-0" =
      if b.kingsideRights b.turn then
        some (if b.turn then (⟨4, 6, none⟩ : Move) else ⟨60, 62, none⟩)
      else none) ∧
    ((DescriptiveNotationParser.ofBoard b).parse "O-O-O" =
      if b.queensideRights b.turn then
        some (if b.turn then (⟨4, 2, none⟩ : Move) else ⟨60, 58, none⟩)
      else none) ∧
    ((DescriptiveNotationParser.ofBoard b).parse "0-0-0" =
      if b.queensideRights b.turn then
        some (if b.turn then (⟨4, 2, none⟩ : Move) else ⟨60, 58, none⟩)
      else none) := by
  refine ⟨?_, ?_, ?_, ?_⟩
  · show (DescriptiveNotationParser.ofBoard b).parse_castling_kingside = _
    unfold DescriptiveNotationParser.parse_castling_kingside
    rcases hb : b.turn <;>
      simp [DescriptiveNotationParser.ofBoard, hb]
  · show (DescriptiveNotationParser.ofBoard b).parse_castling_kingside = _
    unfold DescriptiveNotationParser.parse_castling_kingside
    rcases hb : b.turn <;>
      simp [DescriptiveNotationParser.ofBoard, hb]
  · show (DescriptiveNotationParser.ofBoard b).parse_castling_queenside = _
    unfold DescriptiveNotationParser.parse_castling_queenside
    rcases hb : b.turn <;>
      simp [DescriptiveNotationParser.ofBoard, hb]
  · show (DescriptiveNotationParser.ofBoard b).parse_castling_queenside = _
    unfold DescriptiveNotationParser.parse_castling_queenside
    rcases hb : b.turn <;>
      simp [DescriptiveNotationParser.ofBoard, hb]

/-! ## C8: dependence on the construction-time side to move -/

/-- C8 counterexample: two parses with the same input string and the same
oracle state (the position after 1.e4, Black to move) give different
results depending on the side-to-move value captured at parser
construction, so the parse result is NOT a function of (input, oracle
state, side to move at call time) alone. -/
theorem C8_counterexample :
    (DescriptiveNotationParser.mk afterE4Board true).parse "P-K4" = none ∧
    (DescriptiveNotationParser.mk afterE4Board false).parse "P-K4" =
      some ⟨52, 36, none⟩ ∧
    afterE4Board.turn = false :=
  ⟨by decide, by decide, by decide⟩

/-- C8 amended: every parse is a pure, deterministic function of the
input string, the oracle's state, and the side to move captured at
parser construction; two parse calls whose parsers carry the same board
and the same captured side return the same result on the same input. -/
theorem C8_purity_amended (p q : DescriptiveNotationParser) (s : String)
    (hb : p.board = q.board) (ht : p.is_white_turn = q.is_white_turn) :
    p.parse s = q.parse s := by
  cases p
  cases q
  cases hb
  cases ht
  rfl

theorem C8_purity_amended_witness :
    (DescriptiveNotationParser.ofBoard initBoard).parse "P-K4" =
      (DescriptiveNotationParser.mk initBoard true).parse "P-K4" :=
  C8_purity_amended (DescriptiveNotationParser.ofBoard initBoard)
    (DescriptiveNotationParser.mk initBoard true) "P-K4" rfl rfl

/-! ## C9: totality of parse -/

/-- C9: parse always terminates with either a resolved move or the
explicit failure value `none` — in particular on malformed inputs
(unrecognized file token `P-Z4`, missing rank digit `P-K`, unmatched
parenthesis `P-K8(Q`, out-of-range rank digit `P-K9`) and on grammatical
inputs with no legal candidate (`R-K4` on the initial position). -/
theorem C9_total_no_exceptions :
    (∀ (p : DescriptiveNotationParser) (s : String),
       p.parse s = none ∨ ∃ m, p.parse s = some m) ∧
    (DescriptiveNotationParser.ofBoard initBoard).parse "P-Z4" = none ∧
    (DescriptiveNotationParser.ofBoard initBoard).parse "P-K" = none ∧
    (DescriptiveNotationParser.ofBoard initBoard).parse "P-K8(Q" = none ∧
    (DescriptiveNotationParser.ofBoard initBoard).parse "P-K9" = none ∧
    (DescriptiveNotationParser.ofBoard initBoard).parse "R-K4" = none := by
  refine ⟨fun p s => ?_, by decide, by decide, by decide, by decide, by decide⟩
  cases h : p.parse s
  · exact Or.inl rfl
  · exact Or.inr ⟨_, rfl⟩

/-! ## C3: disambiguation order -/

/-- C3 counterexample: on `qualBoard` the capture input `QRxN1` leaves
two candidates, neither on the queenside; the second is an actual
capture (a Black knight stands on its destination g1 = 6) while the
first moves to the empty square b1 = 1 — yet the parser returns the
first, non-capturing candidate: in the qualified-piece path, capture
preference is never consulted, contradicting the claimed tie-break
order. -/
theorem C3_counterexample :
    (DescriptiveNotationParser.ofBoard qualBoard).parse "QRXN1" =
        some ⟨4, 1, none⟩ ∧
    qualBoard.pieceAt 1 = none ∧
    qualBoard.pieceAt 6 = some ⟨2, false⟩ ∧
    qualBoard.legalMoves = [⟨4, 1, none⟩, ⟨7, 6, none⟩] ∧
    matchPiece qualBoard 4 4 = true ∧
    matchPiece qualBoard 7 4 = true ∧
    sideMatches 'Q' ⟨4, 1, none⟩ = false ∧
    sideMatches 'Q' ⟨7, 6, none⟩ = false :=
  ⟨by decide, by decide, by decide, by decide, by decide, by decide,
   by decide, by decide⟩

/-- C3 amended: with several surviving candidates, the qualified-piece
path returns the first candidate whose origin file lies on the
qualifier's side (in particular the unique such candidate when exactly
one exists) and otherwise the first candidate — capture preference is
not consulted there; the plain-piece and pawn paths, which have no
qualifier, return the first candidate whose destination currently holds
a piece when the input signaled a capture, and the first candidate
otherwise. -/
theorem C3_disambiguation_amended :
    (∀ (side : Char) (cands : List Move) (m : Move), 2 ≤ cands.length →
       cands.find? (sideMatches side) = some m →
       disambigQualifier side cands = some m) ∧
    (∀ (side : Char) (cands : List Move), 2 ≤ cands.length →
       (∀ m ∈ cands, sideMatches side m = false) →
       disambigQualifier side cands = cands.head?) ∧
    (∀ (side : Char) (cands : List Move) (m : Move), 2 ≤ cands.length →
       m ∈ cands → sideMatches side m = true →
       (∀ m' ∈ cands, sideMatches side m' = true → m' = m) →
       disambigQualifier side cands = some m) ∧
    (∀ (b : Board) (cands : List Move) (m : Move), 2 ≤ cands.length →
       cands.find? (fun m' => (b.pieceAt m'.toSquare).isSome) = some m →
       disambigCapFirst b true cands = some m) ∧
    (∀ (b : Board) (cands : List Move),
       disambigCapFirst b false cands = cands.head?) := by
  have h1 : ∀ (side : Char) (cands : List Move) (m : Move), 2 ≤ cands.length →
      cands.find? (sideMatches side) = some m →
      disambigQualifier side cands = some m := by
    intro side cands m hlen hf
    rcases cands with _ | ⟨a, _ | ⟨b, l⟩⟩
    · simp at hlen
    · simp at hlen
    · unfold disambigQualifier
      rw [hf]
  refine ⟨h1, ?_, ?_, ?_, ?_⟩
  · intro side cands hlen hall
    rcases cands with _ | ⟨a, _ | ⟨b, l⟩⟩
    · simp at hlen
    · simp at hlen
    · unfold disambigQualifier
      rw [List.find?_eq_none.mpr (fun m hm => by simp [hall m hm])]
  · intro side cands m hlen hm hpm huniq
    exact h1 side cands m hlen (find?_eq_some_of_unique hm hpm huniq)
  · intro b cands m hlen hf
    rcases cands with _ | ⟨a, _ | ⟨b', l⟩⟩
    · simp at hlen
    · simp at hlen
    · unfold disambigCapFirst
      simp [hf]
  · intro b cands
    rcases cands with _ | ⟨a, _ | ⟨b', l⟩⟩
    · rfl
    · rfl
    · unfold disambigCapFirst
      simp

theorem C3_disambiguation_amended_witness :
    disambigQualifier 'K' [⟨4, 1, none⟩, ⟨7, 6, none⟩] = some ⟨4, 1, none⟩ ∧
    disambigQualifier 'Q' [⟨4, 1, none⟩, ⟨7, 6, none⟩] =
      ([⟨4, 1, none⟩, ⟨7, 6, none⟩] : List Move).head? ∧
    disambigQualifier 'K' [⟨3, 1, none⟩, ⟨7, 6, none⟩] = some ⟨7, 6, none⟩ ∧
    disambigCapFirst qualBoard true [⟨4, 1, none⟩, ⟨7, 6, none⟩] =
      some ⟨7, 6, none⟩ ∧
    disambigCapFirst qualBoard false [⟨4, 1, none⟩, ⟨7, 6, none⟩] =
      ([⟨4, 1, none⟩, ⟨7, 6, none⟩] : List Move).head? :=
  ⟨C3_disambiguation_amended.1 'K' _ _ (by decide) (by decide),
   C3_disambiguation_amended.2.1 'Q' _ (by decide) (by decide),
   C3_disambiguation_amended.2.2.1 'K' _ _ (by decide) (by decide) (by decide)
     (by decide),
   C3_disambiguation_amended.2.2.2.1 qualBoard _ _ (by decide) (by decide),
   C3_disambiguation_amended.2.2.2.2 qualBoard _⟩

/-! ## C4: generic captures -/

theorem generic_capture_sound {p : DescriptiveNotationParser} {pieceChar : Char}
    {co : Option Char} {pt : Nat} {m : Move}
    (hpm : piece_map pieceChar = some pt)
    (h : p.parse_generic_capture pieceChar co = some m) :
    m ∈ p.board.legalMoves ∧ genericCapPred p.board pt (tptOf co) m = true := by
  unfold DescriptiveNotationParser.parse_generic_capture at h
  rw [hpm] at h
  have h' : (match p.board.legalMoves.filter (genericCapPred p.board pt (tptOf co)) with
      | [] => none
      | m :: _ => some m) = some m := h
  clear h
  rcases hfl : p.board.legalMoves.filter (genericCapPred p.board pt (tptOf co)) with
    _ | ⟨a, l⟩
  · rw [hfl] at h'
    simp at h'
  · rw [hfl] at h'
    simp at h'
    subst h'
    have hmem : a ∈ p.board.legalMoves.filter (genericCapPred p.board pt (tptOf co)) := by
      rw [hfl]
      exact List.mem_cons_self _ _
    simpa using List.mem_filter.mp hmem

theorem genericCapPred_spec {b : Board} {pt : Nat} {tpt : Option Nat} {m : Move}
    (h : genericCapPred b pt tpt m = true) :
    ∃ pc cap, b.pieceAt m.fromSquare = some pc ∧ pc.pieceType = pt ∧
      pc.color = b.turn ∧ b.pieceAt m.toSquare = some cap ∧
      ∀ t, tpt = some t → cap.pieceType = t := by
  unfold genericCapPred at h
  rcases hfrom : b.pieceAt m.fromSquare with _ | pc
  · rw [hfrom] at h
    simp at h
  · rcases hto : b.pieceAt m.toSquare with _ | cap
    · rw [hfrom, hto] at h
      simp at h
    · rw [hfrom, hto] at h
      simp at h
      obtain ⟨⟨h1, h2⟩, h3⟩ := h
      refine ⟨pc, cap, rfl, h1, h2, rfl, ?_⟩
      intro t ht
      rw [ht] at h3
      simpa using h3

/-- C4 counterexample: on `qcapBoard` the qualified generic-capture
input `QRxP` returns the rook's capture of a KNIGHT (a8 = 56 holds a
Black knight, kind 2 ≠ pawn kind 1): the qualified-capture path ignores
the captured-piece letter, contradicting the claim that the piece on the
destination square must have the named kind (or that the parse fails). -/
theorem C4_counterexample :
    (DescriptiveNotationParser.ofBoard qcapBoard).parse "QRXP" =
        some ⟨0, 56, none⟩ ∧
    qcapBoard.pieceAt 56 = some ⟨2, false⟩ ∧
    piece_map 'P' = some 1 ∧
    (⟨2, false⟩ : Piece).pieceType ≠ 1 :=
  ⟨by decide, by decide, by decide, by decide⟩

/-- C4 amended: for PLAIN generic-capture inputs (a piece letter, a
capture marker, optionally a captured-piece letter, e.g. `NxP`, `PxN`,
bare `Px`) any returned move originates from a piece of the named kind
and the side to move's color and its destination holds a piece — an
enemy piece whenever the oracle never targets friendly pieces — whose
kind matches the captured-piece letter when one was given; if no legal
move satisfies the filter the parse fails.  QUALIFIED generic captures
(`QRxP`) reach `_parse_qualified_capture`, which enforces the same
origin/destination constraints but ignores the captured-piece letter. -/
theorem C4_generic_capture_amended :
    (∀ (p : DescriptiveNotationParser) (pieceChar : Char) (co : Option Char)
       (pt : Nat) (m : Move), piece_map pieceChar = some pt →
       p.parse_generic_capture pieceChar co = some m →
       m ∈ p.board.legalMoves ∧
       (∃ pc, p.board.pieceAt m.fromSquare = some pc ∧
          pc.pieceType = pt ∧ pc.color = p.board.turn) ∧
       (∃ cap, p.board.pieceAt m.toSquare = some cap ∧
          ∀ c ct, co = some c → piece_map c = some ct → cap.pieceType = ct)) ∧
    (∀ (p : DescriptiveNotationParser) (pieceChar : Char) (co : Option Char)
       (pt : Nat) (m : Move), piece_map pieceChar = some pt →
       p.parse_generic_capture pieceChar co = some m →
       capturesOnlyEnemies p.board →
       ∃ cap, p.board.pieceAt m.toSquare = some cap ∧
         cap.color ≠ p.board.turn) ∧
    (∀ (p : DescriptiveNotationParser) (pieceChar : Char) (co : Option Char)
       (pt : Nat), piece_map pieceChar = some pt →
       (∀ m ∈ p.board.legalMoves,
          genericCapPred p.board pt (tptOf co) m = false) →
       p.parse_generic_capture pieceChar co = none) ∧
    (∀ (b : Board) (L C : Char),
       L ∈ (['R', 'N', 'B', 'Q', 'K'] : List Char) →
       C ∈ (['P', 'R', 'N', 'B', 'Q', 'K'] : List Char) →
       (DescriptiveNotationParser.ofBoard b).parseChars [L, 'X', C] =
         (DescriptiveNotationParser.ofBoard b).parse_generic_capture L (some C)) ∧
    (∀ (b : Board) (C : Char), C ∈ (['P', 'N', 'B', 'R', 'Q'] : List Char) →
       (DescriptiveNotationParser.ofBoard b).parseChars ['P', 'X', C] =
         (DescriptiveNotationParser.ofBoard b).parse_generic_capture 'P' (some C)) ∧
    (∀ (b : Board) (L : Char), L ∈ (['P', 'R', 'N', 'B', 'Q', 'K'] : List Char) →
       (DescriptiveNotationParser.ofBoard b).parseChars [L, 'X'] =
         (DescriptiveNotationParser.ofBoard b).parse_generic_capture L none) ∧
    (∀ (p : DescriptiveNotationParser) (side : Char) (m : Move),
       p.parse_qualified_capture 'R' side = some m →
       ∃ pc cap, p.board.pieceAt m.fromSquare = some pc ∧ pc.pieceType = 4 ∧
         pc.color = p.board.turn ∧ p.board.pieceAt m.toSquare = some cap) ∧
    (∀ (b : Board) (q : List Char) (pc side : Char),
       QUALIFIED_PIECES q = some (pc, side) →
       (DescriptiveNotationParser.ofBoard b).parseChars (q ++ ['X', 'P']) =
         (DescriptiveNotationParser.ofBoard b).parse_qualified_capture pc side) := by
  refine ⟨?_, ?_, ?_, ?_, ?_, ?_, ?_, ?_⟩
  · intro p pieceChar co pt m hpm h
    obtain ⟨hmem, hpred⟩ := generic_capture_sound hpm h
    obtain ⟨pc, cap, hfrom, h1, h2, hto, h3⟩ := genericCapPred_spec hpred
    refine ⟨hmem, ⟨pc, hfrom, h1, h2⟩, ⟨cap, hto, ?_⟩⟩
    intro c ct hc hct
    exact h3 ct (by rw [hc, tptOf, hct])
  · intro p pieceChar co pt m hpm h hwf
    obtain ⟨hmem, hpred⟩ := generic_capture_sound hpm h
    obtain ⟨pc, cap, hfrom, h1, h2, hto, h3⟩ := genericCapPred_spec hpred
    exact ⟨cap, hto, hwf m hmem cap hto⟩
  · intro p pieceChar co pt hpm hall
    unfold DescriptiveNotationParser.parse_generic_capture
    rw [hpm]
    show (match p.board.legalMoves.filter (genericCapPred p.board pt (tptOf co)) with
          | [] => none
          | m :: _ => some m) = none
    rw [List.filter_eq_nil_iff.mpr (fun m hm => by simp [hall m hm])]
  · intro b L C hL hC
    fin_cases hL <;> fin_cases hC <;> rfl
  · intro b C hC
    fin_cases hC <;> rfl
  · intro b L hL
    fin_cases hL <;> rfl
  · intro p side m h
    have h' : disambigQualifier side
        (p.board.legalMoves.filter (genericCapPred p.board 4 none)) = some m := h
    have hmem := disambigQualifier_mem h'
    have := List.mem_filter.mp hmem
    obtain ⟨pc, cap, hfrom, h1, h2, hto, _⟩ := genericCapPred_spec this.2
    exact ⟨pc, cap, hfrom, h1, h2, hto⟩
  · intro b q pc side hq
    unfold QUALIFIED_PIECES at hq
    split_ifs at hq with e1 e2 e3 e4 e5 e6
    · subst e1
      injection hq with h
      injection h with h1 h2
      subst h1
      subst h2
      rfl
    · subst e2
      injection hq with h
      injection h with h1 h2
      subst h1
      subst h2
      rfl
    · subst e3
      injection hq with h
      injection h with h1 h2
      subst h1
      subst h2
      rfl
    · subst e4
      injection hq with h
      injection h with h1 h2
      subst h1
      subst h2
      rfl
    · subst e5
      injection hq with h
      injection h with h1 h2
      subst h1
      subst h2
      rfl
    · subst e6
      injection hq with h
      injection h with h1 h2
      subst h1
      subst h2
      rfl

theorem C4_generic_capture_amended_witness :
    (⟨21, 36, none⟩ : Move) ∈ ncapBoard.legalMoves ∧
    (∃ pc, ncapBoard.pieceAt (21 : Int) = some pc ∧
       pc.pieceType = 2 ∧ pc.color = ncapBoard.turn) ∧
    (∃ cap, ncapBoard.pieceAt (36 : Int) = some cap ∧
       ∀ c ct, (some 'P' : Option Char) = some c → piece_map c = some ct →
         cap.pieceType = ct) := by
  have h := C4_generic_capture_amended.1 (DescriptiveNotationParser.ofBoard ncapBoard)
    'N' (some 'P') 2 ⟨21, 36, none⟩ (by decide) (by decide)
  exact h

/-! ## C10: en passant defeats generic captures -/

/-- C10: the generic-capture filter demands a piece standing on the
destination square, so on any oracle state where every legal move of the
named kind has an empty destination — in particular when the only
available capture is en passant, whose captured pawn does not stand on
the destination — the generic-capture parse fails.  Concretely, on
`epBoard` (White pawn e5, Black pawn d5 just double-stepped, legal moves
e5xd6 e.p. and e5-e6) the input `PxP` fails even though the en-passant
capture e5xd6 (36→43) is legal. -/
theorem C10_en_passant_generic_capture :
    (∀ (b : Board) (pieceChar : Char) (pt : Nat) (co : Option Char),
       piece_map pieceChar = some pt →
       (∀ m ∈ b.legalMoves, matchPiece b m.fromSquare pt = true →
          b.pieceAt m.toSquare = none) →
       (DescriptiveNotationParser.ofBoard b).parse_generic_capture pieceChar co =
         none) ∧
    (∀ (b : Board),
       (DescriptiveNotationParser.ofBoard b).parseChars ['P', 'X', 'P'] =
         (DescriptiveNotationParser.ofBoard b).parse_generic_capture 'P'
           (some 'P')) ∧
    (DescriptiveNotationParser.ofBoard epBoard).parse "PXP" = none ∧
    (⟨36, 43, none⟩ : Move) ∈ epBoard.legalMoves ∧
    epBoard.pieceAt 43 = none ∧
    epBoard.pieceAt 35 = some ⟨1, false⟩ := by
  refine ⟨?_, fun b => rfl, by decide, by decide, by decide, by decide⟩
  intro b pieceChar pt co hpm hall
  unfold DescriptiveNotationParser.parse_generic_capture
  rw [hpm]
  show (match (DescriptiveNotationParser.ofBoard b).board.legalMoves.filter
        (genericCapPred (DescriptiveNotationParser.ofBoard b).board pt (tptOf co)) with
        | [] => none
        | m :: _ => some m) = none
  rw [List.filter_eq_nil_iff.mpr ?_]
  intro m hm
  intro hpred
  obtain ⟨pc, cap, hfrom, h1, h2, hto, _⟩ := genericCapPred_spec (by simpa using hpred)
  simp only [DescriptiveNotationParser.ofBoard] at hfrom hto hm h2
  have hmp : matchPiece b m.fromSquare pt = true := by
    unfold matchPiece
    rw [hfrom]
    simp [h1, h2]
  have := hall m hm hmp
  rw [this] at hto
  cases hto

theorem C10_en_passant_generic_capture_witness :
    (DescriptiveNotationParser.ofBoard epBoard).parse_generic_capture 'P'
      (some 'P') = none :=
  C10_en_passant_generic_capture.1 epBoard 'P' 1 (some 'P') (by decide)
    (by decide)

/-! ## Normalisation and tokenisation lemmas (for C6 and C7) -/

theorem goodChar_not_ws {c : Char} (h : goodChar c = true) : isWs c = false := by
  simp [goodChar] at h
  tauto

theorem goodChar_toUpper {c : Char} (h : goodChar c = true) : c.toUpper = c := by
  simp [goodChar] at h
  tauto

theorem map_toUpper_eq_self {cs : List Char} (h : ∀ c ∈ cs, c.toUpper = c) :
    cs.map Char.toUpper = cs := by
  induction cs with
  | nil => rfl
  | cons a l ih =>
    simp [h a (List.mem_cons_self a l),
      ih (fun c hc => h c (List.mem_cons_of_mem _ hc))]

theorem dropWhile_isWs_eq_self {cs : List Char} (h : ∀ c ∈ cs, isWs c = false) :
    cs.dropWhile isWs = cs := by
  cases cs with
  | nil => rfl
  | cons a l => simp [List.dropWhile_cons, h a (List.mem_cons_self a l)]

theorem trimChars_eq_self {cs : List Char} (h : ∀ c ∈ cs, isWs c = false) :
    trimChars cs = cs := by
  unfold trimChars
  rw [dropWhile_isWs_eq_self h,
    dropWhile_isWs_eq_self (fun c hc => h c (List.mem_reverse.mp hc))]
  exact List.reverse_reverse cs

theorem isAnnotAt_cons_false {c : Char} {cs : List Char} (h : goodChar c = true) :
    isAnnotAt (c :: cs) = false := by
  have h' : ¬(c = 'C' ∨ c = 'M' ∨ c = '+' ∨ c = '#' ∨ c = 'E') := by
    intro hc
    rcases hc with rfl | rfl | rfl | rfl | rfl <;> exact absurd h (by decide)
  push_neg at h'
  obtain ⟨hC, hM, hplus, hhash, hE⟩ := h'
  simp [isAnnotAt, List.isPrefixOf, Ne.symm hC, Ne.symm hM, Ne.symm hplus,
    Ne.symm hhash, hE]

theorem stripAnnot_eq_self {cs : List Char} (h : ∀ c ∈ cs, goodChar c = true) :
    stripAnnot cs = cs := by
  induction cs with
  | nil => rfl
  | cons a l ih =>
    have hws : ∀ c ∈ a :: l, isWs c = false :=
      fun c hc => goodChar_not_ws (h c hc)
    unfold stripAnnot
    rw [dropWhile_isWs_eq_self hws, isAnnotAt_cons_false (h a (List.mem_cons_self a l))]
    simp
    exact ih (fun c hc => h c (List.mem_cons_of_mem _ hc))

theorem normalize_eq_self {cs : List Char} (h : ∀ c ∈ cs, goodChar c = true) :
    normalize cs = cs := by
  unfold normalize
  rw [trimChars_eq_self (fun c hc => goodChar_not_ws (h c hc))]
  rw [map_toUpper_eq_self (fun c hc => goodChar_toUpper (h c hc))]
  exact stripAnnot_eq_self h

theorem takeWhile_append_all {p : Char → Bool} {cs : List Char}
    (h : ∀ c ∈ cs, p c = true) {d : Char} (hd : p d = false) (rest : List Char) :
    (cs ++ d :: rest).takeWhile p = cs ∧ (cs ++ d :: rest).dropWhile p = d :: rest := by
  induction cs with
  | nil => simp [List.takeWhile_cons, List.dropWhile_cons, hd]
  | cons a l ih =>
    have ha : p a = true := h a (List.mem_cons_self a l)
    have hl := ih (fun c hc => h c (List.mem_cons_of_mem _ hc))
    simp [List.takeWhile_cons, List.dropWhile_cons, ha, hl.1, hl.2]

theorem FILE_MAP_chars {fd : List Char} {f : Char} (h : FILE_MAP fd = some f) :
    (∀ c ∈ fd, goodChar c = true ∧ isUpperAZ c = true) ∧ fd ≠ [] := by
  unfold FILE_MAP at h
  split_ifs at h with e1 e2 e3 e4 e5 e6 e7 e8 <;>
    first
    | (subst e1; exact ⟨by decide, by decide⟩)
    | (subst e2; exact ⟨by decide, by decide⟩)
    | (subst e3; exact ⟨by decide, by decide⟩)
    | (subst e4; exact ⟨by decide, by decide⟩)
    | (subst e5; exact ⟨by decide, by decide⟩)
    | (subst e6; exact ⟨by decide, by decide⟩)
    | (subst e7; exact ⟨by decide, by decide⟩)
    | (subst e8; exact ⟨by decide, by decide⟩)

theorem promo_map_chars {pr : Char} {pv : Nat} (h : promo_map pr = some pv) :
    goodChar pr = true ∧ (pr = 'Q' ∨ pr = 'R' ∨ pr = 'B' ∨ pr = 'N') := by
  unfold promo_map at h
  split_ifs at h with e1 e2 e3 e4
  · exact ⟨by subst e1; decide, Or.inl e1⟩
  · exact ⟨by subst e2; decide, Or.inr (Or.inl e2)⟩
  · exact ⟨by subst e3; decide, Or.inr (Or.inr (Or.inl e3))⟩
  · exact ⟨by subst e4; decide, Or.inr (Or.inr (Or.inr e4))⟩

theorem digitChar_facts (d : Nat) (hd : d ≤ 9) :
    goodChar (digitChar d) = true ∧ (digitChar d).isDigit = true ∧
    isUpperAZ (digitChar d) = false ∧
    digitsToInt [digitChar d] = (d : Int) := by
  interval_cases d <;> exact ⟨by decide, by decide, by decide, by decide⟩

/-! ## C6: promotion parsing -/

theorem dispatchTop_to_promotion (p : DescriptiveNotationParser) (rest : List Char)
    (hc1 : ('P' :: '-' :: rest).contains '(' = true)
    (hc2 : ('P' :: '-' :: rest).contains ')' = true) :
    p.dispatchTop ('P' :: '-' :: rest) = p.parse_promotion ('P' :: '-' :: rest) := by
  have e1 : (decide ('P' :: '-' :: rest = ['O', '-', 'O']) ||
      decide ('P' :: '-' :: rest = ['0', '-', '0'])) = false := by
    simp only [Bool.or_eq_false_iff, decide_eq_false_iff_not]
    constructor <;> (intro h; injection h with hh; exact absurd hh (by decide))
  have e2 : (decide ('P' :: '-' :: rest = ['O', '-', 'O', '-', 'O']) ||
      decide ('P' :: '-' :: rest = ['0', '-', '0', '-', '0'])) = false := by
    simp only [Bool.or_eq_false_iff, decide_eq_false_iff_not]
    constructor <;> (intro h; injection h with hh; exact absurd hh (by decide))
  have e3 : (('P' :: '-' :: rest).contains '(' &&
      ('P' :: '-' :: rest).contains ')') = true := by
    rw [hc1, hc2]
    rfl
  unfold DescriptiveNotationParser.dispatchTop
  rw [e1, e2, e3]
  simp

theorem promoBody_shape (p : DescriptiveNotationParser)
    {fd : List Char} {f : Char} (hf : FILE_MAP fd = some f)
    (d : Nat) (hd : d ≤ 9) {pr : Char} {pv : Nat} (hpr : promo_map pr = some pv) :
    p.promoBody (fd ++ digitChar d :: '(' :: pr :: ')' :: []) =
      p.board.legalMoves.find? (fun m =>
        m.toSquare == file_rank_to_square f (p.rankToStd (d : Int)) &&
        m.promotion.isSome && m.promotion == promo_map pr) := by
  obtain ⟨hchars, hne⟩ := FILE_MAP_chars hf
  obtain ⟨hdg, hdd, hdAZ, hdi⟩ := digitChar_facts d hd
  obtain ⟨hprg, hprQ⟩ := promo_map_chars hpr
  have hsplit := takeWhile_append_all (fun c hc => (hchars c hc).2) hdAZ
    ('(' :: pr :: ')' :: [])
  unfold DescriptiveNotationParser.promoBody
  rw [hsplit.1, hsplit.2]
  rw [if_neg hne]
  have htd : (digitChar d :: '(' :: pr :: ')' :: []).takeWhile Char.isDigit =
      [digitChar d] := by
    simp [List.takeWhile_cons, hdd]
  have hdd2 : (digitChar d :: '(' :: pr :: ')' :: []).dropWhile Char.isDigit =
      '(' :: pr :: ')' :: [] := by
    simp [List.dropWhile_cons, hdd]
  rw [htd, hdd2]
  rw [if_neg (by simp)]
  have hcond : (decide (pr = 'Q') || decide (pr = 'R') || decide (pr = 'B') ||
      decide (pr = 'N')) = true := by
    rcases hprQ with rfl | rfl | rfl | rfl <;> decide
  show (if (decide (pr = 'Q') || decide (pr = 'R') || decide (pr = 'B') ||
        decide (pr = 'N')) = true then
      match descriptive_file_to_standard fd with
      | none => none
      | some f =>
        p.board.legalMoves.find? (fun m =>
          m.toSquare == file_rank_to_square f
            (p.rankToStd (digitsToInt [digitChar d])) &&
          m.promotion.isSome && m.promotion == promo_map pr)
      else none) = _
  rw [hcond]
  unfold descriptive_file_to_standard
  rw [hf, hdi]
  simp

/-- C6: for every promotion input `P-<file><rank>(<letter>)` with a
valid file token, rank digit 1–8 and letter in {Q,R,B,N}, any returned
move is a legal move whose destination is the resolved absolute square
and whose promotion kind is exactly the requested one; if no legal move
has that destination and promotion kind, the parse fails. -/
theorem C6_promotion (b : Board) (fd : List Char) (f : Char) (d : Nat)
    (pr : Char) (pv : Nat) (hf : FILE_MAP fd = some f)
    (hd1 : 1 ≤ d) (hd8 : d ≤ 8) (hpr : promo_map pr = some pv) :
    (∀ m, (DescriptiveNotationParser.ofBoard b).parseChars
        ('P' :: '-' :: (fd ++ digitChar d :: '(' :: pr :: ')' :: [])) = some m →
      m ∈ b.legalMoves ∧
      m.toSquare = file_rank_to_square f
        ((DescriptiveNotationParser.ofBoard b).rankToStd (d : Int)) ∧
      m.promotion = some pv) ∧
    ((∀ m ∈ b.legalMoves,
        ¬(m.toSquare = file_rank_to_square f
            ((DescriptiveNotationParser.ofBoard b).rankToStd (d : Int)) ∧
          m.promotion = some pv)) →
      (DescriptiveNotationParser.ofBoard b).parseChars
        ('P' :: '-' :: (fd ++ digitChar d :: '(' :: pr :: ')' :: [])) = none) := by
  obtain ⟨hchars, hne⟩ := FILE_MAP_chars hf
  obtain ⟨hdg, hdd, hdAZ, hdi⟩ := digitChar_facts d (by omega)
  obtain ⟨hprg, hprQ⟩ := promo_map_chars hpr
  have hgood : ∀ c ∈ ('P' :: '-' :: (fd ++ digitChar d :: '(' :: pr :: ')' :: [])),
      goodChar c = true := by
    intro c hc
    simp at hc
    rcases hc with rfl | rfl | hc | rfl | rfl | rfl | rfl
    · decide
    · decide
    · exact (hchars c hc).1
    · exact hdg
    · decide
    · exact hprg
    · decide
  have hred : (DescriptiveNotationParser.ofBoard b).parseChars
      ('P' :: '-' :: (fd ++ digitChar d :: '(' :: pr :: ')' :: [])) =
      b.legalMoves.find? (fun m =>
        m.toSquare == file_rank_to_square f
          ((DescriptiveNotationParser.ofBoard b).rankToStd (d : Int)) &&
        m.promotion.isSome && m.promotion == promo_map pr) := by
    unfold DescriptiveNotationParser.parseChars
    rw [normalize_eq_self hgood]
    rw [dispatchTop_to_promotion _ _
      (List.elem_eq_true_of_mem (by simp)) (List.elem_eq_true_of_mem (by simp))]
    show (DescriptiveNotationParser.ofBoard b).promoBody
      (fd ++ digitChar d :: '(' :: pr :: ')' :: []) = _
    exact promoBody_shape _ hf d (by omega) hpr
  constructor
  · intro m hm
    rw [hred] at hm
    have hmem := List.mem_of_find?_eq_some hm
    have hp := List.find?_some hm
    simp [hpr] at hp
    exact ⟨hmem, hp.1.1, hp.2⟩
  · intro hnone
    rw [hred]
    apply List.find?_eq_none.mpr
    intro m hm
    have := hnone m hm
    simp [hpr]
    intro hsq hps
    intro hpv
    exact this ⟨hsq, hpv⟩

theorem C6_promotion_witness :
    ((∀ m, (DescriptiveNotationParser.ofBoard initBoard).parseChars
        ('P' :: '-' :: (['K'] ++ digitChar 8 :: '(' :: 'Q' :: ')' :: [])) = some m →
      m ∈ initBoard.legalMoves ∧
      m.toSquare = file_rank_to_square 'e'
        ((DescriptiveNotationParser.ofBoard initBoard).rankToStd (8 : Int)) ∧
      m.promotion = some 5) ∧
    ((∀ m ∈ initBoard.legalMoves,
        ¬(m.toSquare = file_rank_to_square 'e'
            ((DescriptiveNotationParser.ofBoard initBoard).rankToStd (8 : Int)) ∧
          m.promotion = some 5)) →
      (DescriptiveNotationParser.ofBoard initBoard).parseChars
        ('P' :: '-' :: (['K'] ++ digitChar 8 :: '(' :: 'Q' :: ')' :: [])) = none)) :=
  C6_promotion initBoard ['K'] 'e' 8 'Q' 5 (by decide) (by decide) (by decide)
    (by decide)

/-! ## C7: formatter/parser round trip -/

theorem FILE_NAMES_spec (fidx : Int) (h0 : 0 ≤ fidx) (h8 : fidx < 8) :
    ∃ fchar, FILE_MAP (FILE_NAMES fidx) = some fchar ∧
      ∀ ar : Int, file_rank_to_square fchar ar = ar * 8 + fidx := by
  interval_cases fidx
  · exact ⟨'a', by decide, fun ar => congrArg (fun z => ar * 8 + z) (by decide)⟩
  · exact ⟨'b', by decide, fun ar => congrArg (fun z => ar * 8 + z) (by decide)⟩
  · exact ⟨'c', by decide, fun ar => congrArg (fun z => ar * 8 + z) (by decide)⟩
  · exact ⟨'d', by decide, fun ar => congrArg (fun z => ar * 8 + z) (by decide)⟩
  · exact ⟨'e', by decide, fun ar => congrArg (fun z => ar * 8 + z) (by decide)⟩
  · exact ⟨'f', by decide, fun ar => congrArg (fun z => ar * 8 + z) (by decide)⟩
  · exact ⟨'g', by decide, fun ar => congrArg (fun z => ar * 8 + z) (by decide)⟩
  · exact ⟨'h', by decide, fun ar => congrArg (fun z => ar * 8 + z) (by decide)⟩

theorem rankToStd_fmtRankNum (p : DescriptiveNotationParser) (ar : Int) :
    p.rankToStd (fmtRankNum p.is_white_turn ar) = ar := by
  cases hp : p.is_white_turn <;>
    simp [DescriptiveNotationParser.rankToStd, fmtRankNum, hp]

theorem fmtRankNum_bounds (t : Bool) (ar : Int) (h0 : 0 ≤ ar) (h8 : ar < 8) :
    1 ≤ fmtRankNum t ar ∧ fmtRankNum t ar ≤ 8 := by
  cases t <;> simp [fmtRankNum] <;> omega

theorem intToChars_small (n : Int) (h1 : 1 ≤ n) (h8 : n ≤ 8) :
    intToChars n = [digitChar n.toNat] := by
  interval_cases n <;> decide

theorem PIECE_LETTERS_nonpawn (pt : Nat) (h2 : 2 ≤ pt) (h6 : pt ≤ 6) :
    ∃ L, PIECE_LETTERS pt = [L] ∧ L ∈ (['N', 'B', 'R', 'Q', 'K'] : List Char) ∧
      piece_map L = some pt := by
  interval_cases pt
  · exact ⟨'N', by decide, by decide, by decide⟩
  · exact ⟨'B', by decide, by decide, by decide⟩
  · exact ⟨'R', by decide, by decide, by decide⟩
  · exact ⟨'Q', by decide, by decide, by decide⟩
  · exact ⟨'K', by decide, by decide, by decide⟩

set_option maxHeartbeats 1000000 in
theorem parseChars_piece_shape (p : DescriptiveNotationParser) (L sep : Char)
    (ft : List Char) (fchar : Char) (pt k : Nat)
    (hL : L ∈ (['N', 'B', 'R', 'Q', 'K'] : List Char))
    (hsep : sep ∈ (['-', 'x'] : List Char))
    (hpm : piece_map L = some pt) (hft : FILE_MAP ft = some fchar)
    (hk1 : 1 ≤ k) (hk8 : k ≤ 8) :
    p.parseChars (L :: sep :: (ft ++ [digitChar k])) =
      disambigCapFirst p.board (sep == 'x')
        (movesTo p.board (file_rank_to_square fchar (p.rankToStd (k : Int))) pt) := by
  unfold FILE_MAP at hft
  split_ifs at hft with e1 e2 e3 e4 e5 e6 e7 e8 <;>
    injection hft with hfc
  all_goals subst hfc
  all_goals first
    | subst e1 | subst e2 | subst e3 | subst e4 | subst e5 | subst e6
    | subst e7 | subst e8
  all_goals (fin_cases hL <;> injection hpm with hpt <;> subst hpt <;>
    fin_cases hsep <;> interval_cases k <;> rfl)

set_option maxHeartbeats 1000000 in
theorem parseChars_pawn_shape (p : DescriptiveNotationParser)
    (ft : List Char) (fchar : Char) (k : Nat)
    (hft : FILE_MAP ft = some fchar) (hk1 : 1 ≤ k) (hk8 : k ≤ 8) :
    p.parseChars ('P' :: '-' :: (ft ++ [digitChar k])) =
      disambigCapFirst p.board false
        (movesTo p.board (file_rank_to_square fchar (p.rankToStd (k : Int))) 1) := by
  unfold FILE_MAP at hft
  split_ifs at hft with e1 e2 e3 e4 e5 e6 e7 e8 <;>
    injection hft with hfc
  all_goals subst hfc
  all_goals first
    | subst e1 | subst e2 | subst e3 | subst e4 | subst e5 | subst e6
    | subst e7 | subst e8
  all_goals (interval_cases k <;> rfl)

/-- C7 counterexample: on `pawnCapBoard` the pawn capture e4xd5 (28→35)
has a unique origin, yet the formatter renders it `KPxQ5` (origin-file
prefix) and re-parsing that text returns the pawn PUSH e4-e5 (28→36),
a different move: the round trip fails for pawn captures. -/
theorem C7_counterexample :
    MoveToDescriptive.convert pawnCapBoard ⟨28, 35, none⟩ =
        ['K', 'P', 'x', 'Q', '5'] ∧
    (DescriptiveNotationParser.ofBoard pawnCapBoard).parseChars
        (MoveToDescriptive.convert pawnCapBoard ⟨28, 35, none⟩) =
      some ⟨28, 36, none⟩ ∧
    (⟨28, 36, none⟩ : Move) ≠ ⟨28, 35, none⟩ ∧
    movesTo pawnCapBoard 35 1 = [⟨28, 35, none⟩] :=
  ⟨by decide, by decide, by decide, by decide⟩

/-- C7 amended: the parser's file/rank resolution inverts the
formatter's file/rank computation on every in-range square, and
formatting then re-parsing returns the original move for every
non-castling, promotion-free move of the side to move with an
unambiguous single origin that is NOT a pawn capture; pawn captures are
formatted with an origin-file prefix that the parser reads as a
destination file token, so their round trip fails. -/
theorem C7_roundtrip_amended :
    (∀ (p : DescriptiveNotationParser) (sq : Int), 0 ≤ sq → sq < 64 →
       ∃ fchar, FILE_MAP (FILE_NAMES (sq % 8)) = some fchar ∧
         file_rank_to_square fchar
           (p.rankToStd (fmtRankNum p.is_white_turn (sq / 8))) = sq) ∧
    (∀ (b : Board) (m : Move) (pc : Piece),
       b.isCastlingMove m = false →
       b.pieceAt m.fromSquare = some pc →
       pc.color = b.turn →
       m.promotion = none →
       0 ≤ m.toSquare → m.toSquare < 64 →
       ((2 ≤ pc.pieceType ∧ pc.pieceType ≤ 6) ∨
         (pc.pieceType = 1 ∧ b.pieceAt m.toSquare = none)) →
       movesTo b m.toSquare pc.pieceType = [m] →
       (DescriptiveNotationParser.ofBoard b).parseChars
         (MoveToDescriptive.convert b m) = some m) := by
  constructor
  · intro p sq h0 h64
    obtain ⟨fchar, hfm, hsqf⟩ := FILE_NAMES_spec (sq % 8) (by omega) (by omega)
    refine ⟨fchar, hfm, ?_⟩
    rw [rankToStd_fmtRankNum p (sq / 8), hsqf]
    omega
  · intro b m pc hcast hfrom hcol hpromo hsq0 hsq64 hkind huniq
    obtain ⟨fchar, hfm, hsqf⟩ := FILE_NAMES_spec (m.toSquare % 8) (by omega) (by omega)
    have hrn := fmtRankNum_bounds b.turn (m.toSquare / 8) (by omega) (by omega)
    set k := (fmtRankNum b.turn (m.toSquare / 8)).toNat with hk
    have hkint : (k : Int) = fmtRankNum b.turn (m.toSquare / 8) :=
      Int.toNat_of_nonneg (by omega)
    have hk1 : 1 ≤ k := by omega
    have hk8 : k ≤ 8 := by omega
    have hitc : intToChars (fmtRankNum pc.color (m.toSquare / 8)) = [digitChar k] := by
      rw [hcol]
      exact intToChars_small _ hrn.1 hrn.2
    have hsquare : file_rank_to_square fchar
        ((DescriptiveNotationParser.ofBoard b).rankToStd (k : Int)) = m.toSquare := by
      rw [hkint]
      have h1 : (DescriptiveNotationParser.ofBoard b).rankToStd
          (fmtRankNum b.turn (m.toSquare / 8)) = m.toSquare / 8 :=
        rankToStd_fmtRankNum (DescriptiveNotationParser.ofBoard b) (m.toSquare / 8)
      rw [h1, hsqf]
      omega
    rcases hkind with ⟨hpt2, hpt6⟩ | ⟨hpt1, hcapn⟩
    · obtain ⟨L, hPL, hLmem, hpmL⟩ := PIECE_LETTERS_nonpawn pc.pieceType hpt2 hpt6
      rcases hcap : b.pieceAt m.toSquare with _ | cap
      · have hconv : MoveToDescriptive.convert b m =
            L :: '-' :: (FILE_NAMES (m.toSquare % 8) ++ [digitChar k]) := by
          unfold MoveToDescriptive.convert
          rw [hcast, hfrom, hpromo, hcap]
          simp [hPL, hitc]
        rw [hconv,
          parseChars_piece_shape (DescriptiveNotationParser.ofBoard b) L '-' _ fchar
            pc.pieceType k hLmem (by decide) hpmL hfm hk1 hk8,
          hsquare]
        show disambigCapFirst b false (movesTo b m.toSquare pc.pieceType) = some m
        rw [huniq]
        rfl
      · have hne1 : ¬pc.pieceType = 1 := by omega
        have hconv : MoveToDescriptive.convert b m =
            L :: 'x' :: (FILE_NAMES (m.toSquare % 8) ++ [digitChar k]) := by
          unfold MoveToDescriptive.convert
          rw [hcast, hfrom, hpromo, hcap]
          simp [hPL, hitc, hne1]
        rw [hconv,
          parseChars_piece_shape (DescriptiveNotationParser.ofBoard b) L 'x' _ fchar
            pc.pieceType k hLmem (by decide) hpmL hfm hk1 hk8,
          hsquare]
        show disambigCapFirst b true (movesTo b m.toSquare pc.pieceType) = some m
        rw [huniq]
        rfl
    · have hconv : MoveToDescriptive.convert b m =
          'P' :: '-' :: (FILE_NAMES (m.toSquare % 8) ++ [digitChar k]) := by
        unfold MoveToDescriptive.convert
        rw [hcast, hfrom, hpromo, hcapn]
        simp [hpt1, hitc, PIECE_LETTERS]
      rw [hconv,
        parseChars_pawn_shape (DescriptiveNotationParser.ofBoard b) _ fchar k hfm
          hk1 hk8,
        hsquare]
      show disambigCapFirst b false (movesTo b m.toSquare 1) = some m
      rw [hpt1] at huniq
      rw [huniq]
      rfl

theorem C7_roundtrip_amended_witness :
    (∃ fchar, FILE_MAP (FILE_NAMES ((28 : Int) % 8)) = some fchar ∧
       file_rank_to_square fchar
         ((DescriptiveNotationParser.ofBoard initBoard).rankToStd
           (fmtRankNum (DescriptiveNotationParser.ofBoard initBoard).is_white_turn
             ((28 : Int) / 8))) = 28) ∧
    (DescriptiveNotationParser.ofBoard ncapBoard).parseChars
      (MoveToDescriptive.convert ncapBoard ⟨21, 36, none⟩) = some ⟨21, 36, none⟩ :=
  ⟨C7_roundtrip_amended.1 (DescriptiveNotationParser.ofBoard initBoard) 28
     (by decide) (by decide),
   C7_roundtrip_amended.2 ncapBoard ⟨21, 36, none⟩ ⟨2, true⟩ (by decide) (by decide)
     (by decide) (by decide) (by decide) (by decide)
     (Or.inl ⟨by decide, by decide⟩) (by decide)⟩

end DescChess
